/-
Verification of the core pipeline of the `ambilight` program (src/main.rs):
region construction (`create_led_regions`), offset precomputation
(`precompute_region_indices`), the per-region frame reducer, and the
Adalight packet encoder.

Modelling conventions:
* Rust `usize` arithmetic is modelled by `Nat`; `saturating_sub` is `Nat`
  subtraction (which already saturates at 0), and integer division `/` is
  `Nat` division.
* The `f32` computations inside `create_led_regions` are modelled by exact
  rational arithmetic (`ℚ`).  Rust `f32::round` rounds half away from zero,
  modelled by `rustRound`; the Rust cast `f32 as usize` truncates toward
  zero and saturates below at 0, which on already-rounded values is
  `Int.toNat` (`castUsize`).  All concrete inputs used in counterexamples
  are chosen so that every intermediate `f32` value is exactly
  representable, making the rational model agree with the binary32
  evaluation bit-for-bit there.
* The frame buffer is modelled as a byte-fetch function `Nat → Nat`, and
  the float color correction applied after averaging is abstracted as an
  arbitrary function argument (the claims below do not depend on it).
-/
import Mathlib

namespace Ambilight

/-- The configuration record of the program (struct `AmbilightConfig`).
`f32` fields are carried as `ℚ`; none of the verified functions read them. -/
structure AmbilightConfig where
  fps : ℕ
  port_name : String
  baud_rate : ℕ
  top_led_count : ℕ
  left_led_count : ℕ
  right_led_count : ℕ
  bottom_left_led_count : ℕ
  bottom_right_led_count : ℕ
  offset : ℕ
  invert_direction : Bool
  pixel_thickness : ℕ
  brightness : ℕ
  white_balance_temperature : ℚ
  gamma : ℚ
  deriving Repr, DecidableEq

/-- A screen region sampled for one LED (struct `LedRegion`). -/
structure LedRegion where
  x1 : ℕ
  y1 : ℕ
  x2 : ℕ
  y2 : ℕ
  deriving Repr, DecidableEq

/-- Rust `f32::round`: round to nearest, ties away from zero. -/
def rustRound (q : ℚ) : ℤ :=
  if 0 ≤ q then ⌊q + 1 / 2⌋ else ⌈q - 1 / 2⌉

/-- Rust cast `f32 as usize` applied to an already-rounded value:
truncation saturating below at 0. -/
def castUsize (z : ℤ) : ℕ := z.toNat

/-- `let pixel_thickness = height * config.pixel_thickness / 100;` -/
def pixel_thickness_px (config : AmbilightConfig) (height : ℕ) : ℕ :=
  height * config.pixel_thickness / 100

/-- `let offset_pixels = width * config.offset / 100;` -/
def offset_pixels (config : AmbilightConfig) (width : ℕ) : ℕ :=
  width * config.offset / 100

/-- `let effective_width = width.saturating_sub(offset_pixels);` -/
def effective_width (config : AmbilightConfig) (width : ℕ) : ℕ :=
  width - offset_pixels config width

/-- `let left_group_width = (left_ratio * effective_width as f32).round() as usize;`
where `left_ratio = bottom_left_led_count as f32 / total_bottom as f32`. -/
def left_group_width (config : AmbilightConfig) (width : ℕ) : ℕ :=
  let total_bottom := config.bottom_left_led_count + config.bottom_right_led_count
  let left_ratio : ℚ := (config.bottom_left_led_count : ℚ) / (total_bottom : ℚ)
  castUsize (rustRound (left_ratio * (effective_width config width : ℚ)))

/-- `let right_group_width = (right_ratio * effective_width as f32).round() as usize;`
where `right_ratio = bottom_right_led_count as f32 / total_bottom as f32`. -/
def right_group_width (config : AmbilightConfig) (width : ℕ) : ℕ :=
  let total_bottom := config.bottom_left_led_count + config.bottom_right_led_count
  let right_ratio : ℚ := (config.bottom_right_led_count : ℚ) / (total_bottom : ℚ)
  castUsize (rustRound (right_ratio * (effective_width config width : ℚ)))

/-- `fn create_led_regions(config, width, height) -> Vec<LedRegion>`:
builds the ordered region list: bottom-right group, right edge, top edge,
left edge, bottom-left group.  Translated loop-for-loop from the source;
each `for` loop pushing one region per index is a `List.map` over
`List.range`, and the five pushes concatenate in program order. -/
def create_led_regions (config : AmbilightConfig) (width height : ℕ) :
    List LedRegion :=
  let pixel_thickness := pixel_thickness_px config height
  let total_bottom := config.bottom_left_led_count + config.bottom_right_led_count
  if total_bottom = 0 then []
  else
    let offs := offset_pixels config width
    let lgw := left_group_width config width
    let rgw := right_group_width config width
    let right_group_start := lgw + offs
    -- 1) bottom-right group, left → right
    let bottomRight : List LedRegion :=
      if 0 < config.bottom_right_led_count then
        (List.range config.bottom_right_led_count).map (fun (i : ℕ) =>
          let seg_w : ℚ := (rgw : ℚ) / (config.bottom_right_led_count : ℚ)
          let x1 := castUsize (rustRound ((right_group_start : ℚ) + (i : ℚ) * seg_w))
          let x2 := castUsize (rustRound ((right_group_start : ℚ) + ((i : ℚ) + 1) * seg_w))
          { x1 := min x1 width
            y1 := height - pixel_thickness
            x2 := min x2 width
            y2 := height })
      else []
    -- 2) right edge, bottom → top
    let rightSide : List LedRegion :=
      if 0 < config.right_led_count then
        (List.range config.right_led_count).map (fun (i : ℕ) =>
          let seg_h : ℚ := (height : ℚ) / (config.right_led_count : ℚ)
          let y1 := castUsize (rustRound ((height : ℚ) - ((i : ℚ) + 1) * seg_h))
          let y2 := castUsize (rustRound ((height : ℚ) - (i : ℚ) * seg_h))
          { x1 := width - pixel_thickness
            y1 := min y1 height
            x2 := width
            y2 := min y2 height })
      else []
    -- 3) top edge, right → left (index reversed)
    let topSide : List LedRegion :=
      if 0 < config.top_led_count then
        (List.range config.top_led_count).map (fun (i : ℕ) =>
          let seg_w : ℚ := (width : ℚ) / (config.top_led_count : ℚ)
          let rev_i := config.top_led_count - 1 - i
          let x1 := castUsize (rustRound ((rev_i : ℚ) * seg_w))
          let x2 := castUsize (rustRound (((rev_i : ℚ) + 1) * seg_w))
          { x1 := min x1 width
            y1 := 0
            x2 := min x2 width
            y2 := pixel_thickness })
      else []
    -- 4) left edge, top → bottom
    let leftSide : List LedRegion :=
      if 0 < config.left_led_count then
        (List.range config.left_led_count).map (fun (i : ℕ) =>
          let seg_h : ℚ := (height : ℚ) / (config.left_led_count : ℚ)
          let y1 := castUsize (rustRound ((i : ℚ) * seg_h))
          let y2 := castUsize (rustRound (((i : ℚ) + 1) * seg_h))
          { x1 := 0
            y1 := min y1 height
            x2 := pixel_thickness
            y2 := min y2 height })
      else []
    -- 5) bottom-left group, left → right
    let bottomLeft : List LedRegion :=
      if 0 < config.bottom_left_led_count then
        (List.range config.bottom_left_led_count).map (fun (i : ℕ) =>
          let seg_w : ℚ := (lgw : ℚ) / (config.bottom_left_led_count : ℚ)
          let x1 := castUsize (rustRound ((i : ℚ) * seg_w))
          let x2 := castUsize (rustRound (((i : ℚ) + 1) * seg_w))
          { x1 := min x1 width
            y1 := height - pixel_thickness
            x2 := min x2 width
            y2 := height })
      else []
    bottomRight ++ rightSide ++ topSide ++ leftSide ++ bottomLeft

/-- The region list the main loop actually uses: `create_led_regions`
followed by `led_regions.reverse()` when `config.invert_direction`. -/
def final_led_regions (config : AmbilightConfig) (width height : ℕ) :
    List LedRegion :=
  let led_regions := create_led_regions config width height
  if config.invert_direction then led_regions.reverse else led_regions

/-- `fn precompute_region_indices(regions, width) -> Vec<Vec<usize>>`:
for each region, push `y*width*4 + x*4` for `y` in `y1..y2`, `x` in
`x1..x2` (translated push-loop for push-loop as folds over the ranges). -/
def precompute_region_indices (regions : List LedRegion) (width : ℕ) :
    List (List ℕ) :=
  regions.map (fun region =>
    (List.range' region.y1 (region.y2 - region.y1)).foldl
      (fun indices y =>
        let row_base := y * width * 4
        (List.range' region.x1 (region.x2 - region.x1)).foldl
          (fun ind x => ind ++ [row_base + x * 4]) indices)
      [])

/-- One row of offsets of a region, in the spec's closed form:
`y*width*4 + x*4` for `x` in `[x1, x2)`. -/
def region_row (region : LedRegion) (width y : ℕ) : List ℕ :=
  (List.range' region.x1 (region.x2 - region.x1)).map
    (fun x => y * width * 4 + x * 4)

/-- All offsets of a region in the spec's closed form: rows `y1, …, y2-1`
concatenated in order (row-major enumeration). -/
def region_offsets (region : LedRegion) (width : ℕ) : List ℕ :=
  (List.range' region.y1 (region.y2 - region.y1)).flatMap
    (fun y => region_row region width y)

/-- The per-region reducer closure of the main loop: sum B, G, R bytes at
`offset`, `offset+1`, `offset+2` over the offset list, return `(0,0,0)`
when the list is empty, and otherwise divide by the count and apply the
color correction.  The frame buffer is a byte fetch `frame : ℕ → ℕ` and the
float gamma/white-balance/brightness stage is the abstract `correct`. -/
def reduce_region (correct : ℕ → ℕ → ℕ → ℕ × ℕ × ℕ) (frame : ℕ → ℕ)
    (indices : List ℕ) : ℕ × ℕ × ℕ :=
  let sums :=
    indices.foldl
      (fun (s : ℕ × ℕ × ℕ) off =>
        (s.1 + frame (off + 2), s.2.1 + frame (off + 1), s.2.2 + frame off))
      (0, 0, 0)
  let count := indices.length
  if count = 0 then (0, 0, 0)
  else correct (sums.1 / count) (sums.2.1 / count) (sums.2.2 / count)

/-- The Adalight packet assembly of the main loop: magic `"Ada"`, then
`hi = ((3n) >> 8) as u8`, `lo = (3n & 0xFF) as u8`, `chk = hi ^ lo ^ 0x55`,
then the triples as `R, G, B` bytes in order. -/
def encode_packet (colors : List (ℕ × ℕ × ℕ)) : List ℕ :=
  let n := colors.length * 3
  let hi := (n >>> 8) % 256
  let lo := (n &&& 0xFF) % 256
  let chk := hi ^^^ lo ^^^ 0x55
  [65, 100, 97] ++ [hi, lo, chk] ++
    colors.flatMap (fun c => [c.1, c.2.1, c.2.2])

/-- "2-byte big-endian count-minus-one" as the spec's §3 words describe the
length field (for comparison with the encoder; §6 and the code disagree
with this). -/
def spec_count_minus_one_field (ledCount : ℕ) : ℕ × ℕ :=
  ((ledCount - 1) / 256 % 256, (ledCount - 1) % 256)

/-! ### Helper lemmas -/

/-- Evaluation rule for a rounded-and-cast nonnegative value. -/
lemma round_cast_eval (q : ℚ) (n : ℕ) (h0 : 0 ≤ q) (h1 : (n : ℚ) ≤ q + 1 / 2)
    (h2 : q + 1 / 2 < n + 1) : castUsize (rustRound q) = n := by
  rw [rustRound, if_pos h0, castUsize]
  have : ⌊q + 1 / 2⌋ = (n : ℤ) := by
    rw [Int.floor_eq_iff]
    constructor
    · exact_mod_cast h1
    · push_cast
      exact h2
  rw [this]
  simp

/-- A push-loop over a list is the accumulator followed by the mapped list. -/
lemma foldl_push {α β : Type} (f : α → β) :
    ∀ (l : List α) (acc : List β),
      l.foldl (fun a x => a ++ [f x]) acc = acc ++ l.map f := by
  intro l
  induction l with
  | nil => simp
  | cons x xs ih =>
    intro acc
    simp [ih]

/-- A fold whose body appends one block per element is the accumulator
followed by the concatenation of the blocks. -/
lemma foldl_rows {α : Type} (g : α → List ℕ) (F : List ℕ → α → List ℕ)
    (hF : ∀ acc y, F acc y = acc ++ g y) :
    ∀ (l : List α) (acc : List ℕ), l.foldl F acc = acc ++ l.flatMap g := by
  intro l
  induction l with
  | nil => simp
  | cons y ys ih =>
    intro acc
    rw [List.foldl_cons, hF, ih, List.flatMap_cons, List.append_assoc]

/-- A `flatMap` all of whose blocks are empty is empty. -/
lemma flatMap_eq_nil {α : Type} (l : List α) (g : α → List ℕ)
    (h : ∀ y ∈ l, g y = []) : l.flatMap g = [] := by
  induction l with
  | nil => rfl
  | cons y ys ih =>
    rw [List.flatMap_cons, h y (by simp), List.nil_append]
    exact ih (fun z hz => h z (by simp [hz]))

/-- The imperative offset loop of `precompute_region_indices` computes the
row-major closed form `region_offsets` for each region, in order. -/
lemma precompute_region_indices_eq (regions : List LedRegion) (width : ℕ) :
    precompute_region_indices regions width =
      regions.map (fun r => region_offsets r width) := by
  rw [precompute_region_indices]
  apply List.map_congr_left
  intro r _
  rw [region_offsets,
    foldl_rows (fun y => region_row r width y) _
      (fun acc y => by simp only [region_row]; exact foldl_push _ _ acc),
    List.nil_append]

/-- Length of the offset list of one region. -/
lemma region_offsets_length (r : LedRegion) (width : ℕ) :
    (region_offsets r width).length = (r.y2 - r.y1) * (r.x2 - r.x1) := by
  rw [region_offsets]
  generalize r.y2 - r.y1 = n
  generalize r.y1 = s
  induction n generalizing s with
  | zero => simp
  | succ n ih =>
    rw [List.range'_succ, List.flatMap_cons, List.length_append, ih (s + 1)]
    simp only [region_row, List.length_map, List.length_range']
    ring

/-- `List.range'` with step 1 is strictly increasing. -/
lemma pairwise_lt_range_aux : ∀ (n s : ℕ), (List.range' s n).Pairwise (· < ·) := by
  intro n
  induction n with
  | zero =>
    intro s
    simp
  | succ n ih =>
    intro s
    rw [List.range'_succ]
    refine List.pairwise_cons.mpr ⟨?_, ih (s + 1)⟩
    intro y hy
    obtain ⟨i, _, rfl⟩ := List.mem_range'.mp hy
    omega

def cfgBug : AmbilightConfig :=
  { fps := 60, port_name := "COM3", baud_rate := 115200,
    top_led_count := 0, left_led_count := 1, right_led_count := 0,
    bottom_left_led_count := 1, bottom_right_led_count := 0,
    offset := 0, invert_direction := false, pixel_thickness := 100,
    brightness := 100, white_balance_temperature := 6600, gamma := 2 }

lemma cfgBug_lgw : left_group_width cfgBug 1 = 1 := by
  simp only [left_group_width, effective_width, offset_pixels, cfgBug]
  norm_num
  rw [show ((1 : ℚ)) = ((1 : ℕ) : ℚ) by norm_num]
  exact round_cast_eval _ 1 (by norm_num) (by norm_num) (by norm_num)

lemma cfgBug_rgw : right_group_width cfgBug 1 = 0 := by
  simp only [right_group_width, effective_width, offset_pixels, cfgBug]
  norm_num
  rw [show ((0 : ℚ)) = ((0 : ℕ) : ℚ) by norm_num]
  exact round_cast_eval _ 0 (by norm_num) (by norm_num) (by norm_num)

/-- The regions the builder produces for the out-of-bounds scenario:
portrait screen 1×2, thickness 100 % (2 px, measured from the height), one
left LED and one bottom-left LED.  The left-edge region has `x2 = 2` even
though the screen is only 1 pixel wide. -/
lemma cfgBug_regions : create_led_regions cfgBug 1 2 =
    [⟨0, 0, 2, 2⟩, ⟨0, 0, 1, 2⟩] := by
  have h0 : castUsize (rustRound (0 : ℚ)) = 0 :=
    round_cast_eval 0 0 (by norm_num) (by norm_num) (by norm_num)
  have h1 : castUsize (rustRound (1 : ℚ)) = 1 :=
    round_cast_eval 1 1 (by norm_num) (by norm_num) (by norm_num)
  have h2 : castUsize (rustRound (2 : ℚ)) = 2 :=
    round_cast_eval 2 2 (by norm_num) (by norm_num) (by norm_num)
  simp only [create_led_regions, cfgBug_lgw, cfgBug_rgw]
  norm_num [cfgBug, pixel_thickness_px, show List.range 1 = [0] by decide,
    h0, h1, h2]

def cfg9 : AmbilightConfig :=
  { fps := 60, port_name := "COM3", baud_rate := 115200,
    top_led_count := 0, left_led_count := 0, right_led_count := 0,
    bottom_left_led_count := 1, bottom_right_led_count := 1,
    offset := 0, invert_direction := false, pixel_thickness := 0,
    brightness := 100, white_balance_temperature := 6600, gamma := 2 }

lemma cfg9_lgw : left_group_width cfg9 3 = 2 := by
  have h32 : castUsize (rustRound (3 / 2 : ℚ)) = 2 :=
    round_cast_eval (3 / 2) 2 (by norm_num) (by norm_num) (by norm_num)
  simp only [left_group_width, effective_width, offset_pixels, cfg9]
  norm_num [h32]

lemma cfg9_rgw : right_group_width cfg9 3 = 2 := by
  have h32 : castUsize (rustRound (3 / 2 : ℚ)) = 2 :=
    round_cast_eval (3 / 2) 2 (by norm_num) (by norm_num) (by norm_num)
  simp only [right_group_width, effective_width, offset_pixels, cfg9]
  norm_num [h32]

/-- Each guarded edge loop contributes exactly its LED count of regions. -/
lemma length_if_range_map (c : ℕ) (f : ℕ → LedRegion) :
    (if 0 < c then (List.range c).map f else []).length = c := by
  rcases Nat.eq_zero_or_pos c with h | h
  · subst h
    simp
  · simp [if_pos h]

/-- Every offset of a region is of the form `y*width*4 + x*4` with
`y ∈ [y1, y2)` and `x ∈ [x1, x2)`, hence a multiple of 4. -/
lemma region_offsets_dvd (r : LedRegion) (width : ℕ) :
    ∀ off ∈ region_offsets r width, 4 ∣ off := by
  intro off hoff
  simp only [region_offsets, region_row, List.mem_flatMap, List.mem_map,
    List.mem_range'] at hoff
  obtain ⟨y, _, x, _, rfl⟩ := hoff
  exact ⟨y * width + x, by ring⟩

/-- Offsets are strictly increasing within one row. -/
lemma region_row_pairwise (r : LedRegion) (width y : ℕ) :
    (region_row r width y).Pairwise (· < ·) := by
  rw [region_row]
  refine List.Pairwise.map _ ?_ (pairwise_lt_range_aux _ _)
  intro a b hab
  omega

/-- The row of offsets for `y + 1` is the row for `y` shifted by `width*4`. -/
lemma region_row_succ (r : LedRegion) (width y : ℕ) :
    region_row r width (y + 1) =
      (region_row r width y).map (fun off => off + width * 4) := by
  simp only [region_row, List.map_map]
  apply List.map_congr_left
  intro x _
  simp only [Function.comp_apply]
  ring

/-- A zero-area region yields an empty offset list. -/
lemma region_offsets_nil (r : LedRegion) (width : ℕ)
    (h : r.x2 ≤ r.x1 ∨ r.y2 ≤ r.y1) : region_offsets r width = [] := by
  rcases h with h | h
  · rw [region_offsets]
    exact flatMap_eq_nil _ _ (fun y _ => by
      rw [region_row, Nat.sub_eq_zero_of_le h]
      rfl)
  · rw [region_offsets, Nat.sub_eq_zero_of_le h]
    rfl

/-- The assembled packet as an explicit cons chain. -/
lemma encode_packet_cons (colors : List (ℕ × ℕ × ℕ)) :
    encode_packet colors =
      65 :: 100 :: 97 ::
        ((colors.length * 3) >>> 8) % 256 ::
        (colors.length * 3 &&& 255) % 256 ::
        (((colors.length * 3) >>> 8) % 256 ^^^
          (colors.length * 3 &&& 255) % 256 ^^^ 85) ::
        colors.flatMap (fun c => [c.1, c.2.1, c.2.2]) := by
  simp only [encode_packet, List.cons_append, List.nil_append]

/-- The color payload of `n` triples occupies `3n` bytes. -/
lemma flatMap_triple_length (colors : List (ℕ × ℕ × ℕ)) :
    (colors.flatMap (fun c => [c.1, c.2.1, c.2.2])).length =
      3 * colors.length := by
  induction colors with
  | nil => rfl
  | cons c cs ih =>
    rw [List.flatMap_cons, List.length_append, ih]
    simp only [List.length_cons, List.length_nil]
    omega

/-- `>> 8` on `Nat` is division by 256. -/
lemma hi_byte_eq (n : ℕ) : (n >>> 8) % 256 = n / 256 % 256 := by
  rw [Nat.shiftRight_eq_div_pow]

/-- `& 0xFF` on `Nat` is reduction mod 256. -/
lemma lo_byte_eq (n : ℕ) : (n &&& 255) % 256 = n % 256 := by
  rw [show (255 : ℕ) = 2 ^ 8 - 1 by norm_num, Nat.and_pow_two_sub_one_eq_mod]
  omega

/-- The two count bytes recompose to the count reduced mod 2^16. -/
lemma byte_pair_recompose (n : ℕ) :
    256 * (n / 256 % 256) + n % 256 = n % 65536 := by
  rw [show (65536 : ℕ) = 256 * 256 by norm_num, ← Nat.mod_mul_right_div_self,
    ← Nat.mod_mod_of_dvd n (show (256 : ℕ) ∣ 256 * 256 by norm_num)]
  exact Nat.div_add_mod (n % (256 * 256)) 256

/-! ### Claim theorems -/

/-- Claim C1: the spec asserts that with the percentage fields in range
(`offset` and `pixel_thickness` in 0–100), every byte offset placed in a
precomputed region index table satisfies `offset + 2 < width*height*4`.
The code refutes this: for `cfgBug` (thickness 100 %, offset 0 %, both in
range; one left LED, one bottom-left LED) on a portrait 1×2 screen, the
left-edge region is built with `x2 = pixel_thickness = 2` — derived from
the *height* and never clamped by `width` — so its offset table contains
the offset 8, and the reducer's read at `8 + 2 = 10` lies outside the
`1*2*4 = 8`-byte frame buffer. -/
theorem C1_offset_table_out_of_bounds :
    ∃ idxs ∈ precompute_region_indices (create_led_regions cfgBug 1 2) 1,
      ∃ off ∈ idxs, ¬(off + 2 < 1 * 2 * 4) := by
  rw [cfgBug_regions]
  decide

/-- Claim C2: the spec asserts that every `LedRegion` returned by the
builder satisfies `x1 ≤ x2 ≤ width` and `y1 ≤ y2 ≤ height` whenever the
percentage fields are in range.  The code refutes the `x2 ≤ width` part:
for `cfgBug` (in-range percentages) on a 1×2 screen, the left-edge region
is stored with `x2 = pixel_thickness = 2 > width = 1`; the left edge's
`x2` is the only coordinate the code does not clamp to the screen. -/
theorem C2_region_exceeds_screen_width :
    ∃ r ∈ create_led_regions cfgBug 1 2, ¬(r.x2 ≤ 1) := by
  rw [cfgBug_regions]
  decide

/-- Claim C3: for every configuration and screen size, the region list is
empty when both bottom LED counts are zero (even with other edges
configured), and otherwise has length equal to the sum of the five LED
counts. -/
theorem C3_region_list_length (config : AmbilightConfig) (width height : ℕ) :
    (config.bottom_left_led_count + config.bottom_right_led_count = 0 →
      create_led_regions config width height = []) ∧
    (config.bottom_left_led_count + config.bottom_right_led_count ≠ 0 →
      (create_led_regions config width height).length =
        config.top_led_count + config.left_led_count +
          config.right_led_count + config.bottom_left_led_count +
          config.bottom_right_led_count) := by
  constructor
  · intro h
    simp only [create_led_regions]
    rw [if_pos h]
  · intro h
    simp only [create_led_regions]
    rw [if_neg h]
    simp only [List.length_append, length_if_range_map]
    omega

def cfgC3 : AmbilightConfig :=
  { fps := 30, port_name := "COM4", baud_rate := 115200,
    top_led_count := 3, left_led_count := 4, right_led_count := 2,
    bottom_left_led_count := 5, bottom_right_led_count := 1,
    offset := 10, invert_direction := false, pixel_thickness := 5,
    brightness := 100, white_balance_temperature := 6600, gamma := 2 }

def cfgC3z : AmbilightConfig :=
  { fps := 30, port_name := "COM4", baud_rate := 115200,
    top_led_count := 3, left_led_count := 4, right_led_count := 2,
    bottom_left_led_count := 0, bottom_right_led_count := 0,
    offset := 10, invert_direction := false, pixel_thickness := 5,
    brightness := 100, white_balance_temperature := 6600, gamma := 2 }

/-- Witness for C3 at concrete inputs: counts 3+4+2+5+1 give 15 regions on
a 100×50 screen, and zero bottom LEDs give no regions at all despite the
configured edges. -/
theorem C3_region_list_length_witness :
    (create_led_regions cfgC3 100 50).length = 15 ∧
    create_led_regions cfgC3z 100 50 = [] :=
  ⟨(C3_region_list_length cfgC3 100 50).2 (by decide),
   (C3_region_list_length cfgC3z 100 50).1 (by decide)⟩

/-- Claim C4: for `N` color triples (with `3N` representable in the 16-bit
length field), the packet is `6 + 3N` bytes: ASCII `"Ada"`, the high and
low bytes of `3N`, the checksum `hi xor lo xor 0x55`, then the triples in
order as `R, G, B`. -/
theorem C4_packet_layout (colors : List (ℕ × ℕ × ℕ))
    (h : 3 * colors.length < 65536) :
    (encode_packet colors).length = 6 + 3 * colors.length ∧
    (encode_packet colors).take 3 = [65, 100, 97] ∧
    (encode_packet colors).getD 3 0 = 3 * colors.length / 256 ∧
    (encode_packet colors).getD 4 0 = 3 * colors.length % 256 ∧
    (encode_packet colors).getD 5 0 =
      (encode_packet colors).getD 3 0 ^^^
        (encode_packet colors).getD 4 0 ^^^ 85 ∧
    (encode_packet colors).drop 6 =
      colors.flatMap (fun c => [c.1, c.2.1, c.2.2]) := by
  have h3 : (encode_packet colors).getD 3 0 = 3 * colors.length / 256 := by
    rw [encode_packet_cons]
    show ((colors.length * 3) >>> 8) % 256 = 3 * colors.length / 256
    rw [hi_byte_eq, mul_comm]
    omega
  have h4 : (encode_packet colors).getD 4 0 = 3 * colors.length % 256 := by
    rw [encode_packet_cons]
    show (colors.length * 3 &&& 255) % 256 = 3 * colors.length % 256
    rw [lo_byte_eq, mul_comm]
  refine ⟨?_, ?_, h3, h4, ?_, ?_⟩
  · rw [encode_packet_cons]
    simp only [List.length_cons, flatMap_triple_length]
    omega
  · rw [encode_packet_cons]
    rfl
  · rw [h3, h4, encode_packet_cons]
    show ((colors.length * 3) >>> 8) % 256 ^^^
        (colors.length * 3 &&& 255) % 256 ^^^ 85 = _
    rw [hi_byte_eq, lo_byte_eq, mul_comm]
    have : 3 * colors.length / 256 % 256 = 3 * colors.length / 256 := by omega
    rw [this]
  · rw [encode_packet_cons]
    rfl

/-- Witness for C4 at one concrete triple list. -/
theorem C4_packet_layout_witness :
    (encode_packet [(10, 20, 30)]).length = 6 + 3 * 1 ∧
    (encode_packet [(10, 20, 30)]).getD 4 0 = 3 :=
  ⟨(C4_packet_layout [(10, 20, 30)] (by norm_num)).1,
   (C4_packet_layout [(10, 20, 30)] (by norm_num)).2.2.2.1⟩

/-- Claim C5 as stated is false: the spec's §3 calls bytes 3–4 the big-endian
"count-minus-one", but the code (and the spec's own §6) writes the count
bytes of `3 × count`.  For a single triple the code emits `(0, 3)` while
count-minus-one would be `(0, 0)`. -/
theorem C5_count_minus_one_refuted :
    ((encode_packet [(0, 0, 0)]).getD 3 0,
      (encode_packet [(0, 0, 0)]).getD 4 0) ≠
      spec_count_minus_one_field 1 := by
  decide

/-- Claim C5, amended: bytes 3–4 of the packet are the 2-byte big-endian
encoding of `3 × count` reduced mod 2^16 (not of count-minus-one). -/
theorem C5_length_field_big_endian_3n (colors : List (ℕ × ℕ × ℕ)) :
    (encode_packet colors).getD 3 0 = 3 * colors.length % 65536 / 256 ∧
    (encode_packet colors).getD 4 0 = 3 * colors.length % 65536 % 256 := by
  constructor
  · rw [encode_packet_cons]
    show ((colors.length * 3) >>> 8) % 256 = _
    rw [hi_byte_eq, mul_comm, show (65536 : ℕ) = 256 * 256 by norm_num,
      Nat.mod_mul_right_div_self]
  · rw [encode_packet_cons]
    show (colors.length * 3 &&& 255) % 256 = _
    rw [lo_byte_eq, mul_comm,
      Nat.mod_mod_of_dvd _ (show (256 : ℕ) ∣ 65536 by norm_num)]

/-- Claim C6: the precomputed index tables are exactly one offset list per
region in order; each list is the row-major enumeration
`y*width*4 + x*4` for `y ∈ [y1,y2)`, `x ∈ [x1,x2)` (`region_offsets`),
with `(y2-y1)*(x2-x1)` entries, every entry a multiple of 4, offsets
strictly increasing within a row, consecutive rows shifted by `width*4`,
and zero-area regions contributing an empty list. -/
theorem C6_offset_tables_characterized (regions : List LedRegion) (width : ℕ) :
    precompute_region_indices regions width =
        regions.map (fun r => region_offsets r width) ∧
    (∀ r : LedRegion,
        (region_offsets r width).length = (r.y2 - r.y1) * (r.x2 - r.x1)) ∧
    (∀ r : LedRegion, ∀ off ∈ region_offsets r width, 4 ∣ off) ∧
    (∀ (r : LedRegion) (y : ℕ), (region_row r width y).Pairwise (· < ·)) ∧
    (∀ (r : LedRegion) (y : ℕ),
        region_row r width (y + 1) =
          (region_row r width y).map (fun off => off + width * 4)) ∧
    (∀ r : LedRegion, r.x2 ≤ r.x1 ∨ r.y2 ≤ r.y1 →
        region_offsets r width = []) :=
  ⟨precompute_region_indices_eq regions width,
   fun r => region_offsets_length r width,
   fun r => region_offsets_dvd r width,
   fun r y => region_row_pairwise r width y,
   fun r y => region_row_succ r width y,
   fun r h => region_offsets_nil r width h⟩

/-- Witness for C6: the 2×2 region at the origin with `width = 4` flattens
to the four offsets `0, 4, 16, 20`, and a zero-width region flattens to the
empty list. -/
theorem C6_offset_tables_characterized_witness :
    precompute_region_indices [⟨0, 0, 2, 2⟩] 4 = [[0, 4, 16, 20]] ∧
    region_offsets ⟨3, 5, 3, 7⟩ 4 = [] := by
  constructor
  · rw [(C6_offset_tables_characterized [⟨0, 0, 2, 2⟩] 4).1]
    decide
  · exact (C6_offset_tables_characterized [] 4).2.2.2.2.2 ⟨3, 5, 3, 7⟩
      (Or.inl (by norm_num))

/-- Claim C7: the reducer returns `(0,0,0)` on an empty offset list, for
every frame buffer and every color-correction stage, reaching neither the
division by the sample count nor the correction; the division is behind
the `count == 0` guard. -/
theorem C7_reducer_empty_offsets (correct : ℕ → ℕ → ℕ → ℕ × ℕ × ℕ)
    (frame : ℕ → ℕ) : reduce_region correct frame [] = (0, 0, 0) := by
  rfl

/-- Claim C8: with `invert_direction` set, the region list the main loop
uses is exactly the element-for-element reverse of the list produced for
the same configuration without inversion. -/
theorem C8_invert_direction_reverses (config : AmbilightConfig)
    (width height : ℕ) :
    final_led_regions { config with invert_direction := true } width height =
      (final_led_regions { config with invert_direction := false }
        width height).reverse := by
  have hc : ∀ b : Bool,
      create_led_regions { config with invert_direction := b } width height =
        create_led_regions config width height := fun b => rfl
  simp [final_led_regions, hc]

/-- Claim C9: the bottom-left and bottom-right group widths are rounded
independently from their proportional shares, and for some in-range
configuration (both bottom counts nonzero) they fail to sum to
`effective_width`: with one LED on each side and `width = 3`, each share is
`1.5`, each side rounds to `2`, and `2 + 2 ≠ 3`. -/
theorem C9_bottom_split_not_exact :
    ∃ (config : AmbilightConfig) (width : ℕ),
      0 < config.bottom_left_led_count ∧ 0 < config.bottom_right_led_count ∧
      left_group_width config width + right_group_width config width ≠
        effective_width config width := by
  refine ⟨cfg9, 3, by norm_num [cfg9], by norm_num [cfg9], ?_⟩
  rw [cfg9_lgw, cfg9_rgw]
  norm_num [effective_width, offset_pixels, cfg9]

/-- Claim C10: the encoder writes the length field as
`(3N >> 8) mod 256` and `3N mod 256` with no bound on `N`: the packet is
always emitted with length `6 + 3N`, and the 16-bit value carried by
bytes 3–4 is `3N` reduced mod 65536 (silent wraparound when
`3N ≥ 65536`). -/
theorem C10_length_field_wraps_mod_65536 (colors : List (ℕ × ℕ × ℕ)) :
    (encode_packet colors).getD 3 0 = ((3 * colors.length) >>> 8) % 256 ∧
    (encode_packet colors).getD 4 0 = 3 * colors.length % 256 ∧
    256 * (encode_packet colors).getD 3 0 + (encode_packet colors).getD 4 0 =
      3 * colors.length % 65536 ∧
    (encode_packet colors).length = 6 + 3 * colors.length := by
  have h3 : (encode_packet colors).getD 3 0 = 3 * colors.length / 256 % 256 := by
    rw [encode_packet_cons]
    show ((colors.length * 3) >>> 8) % 256 = _
    rw [hi_byte_eq, mul_comm]
  have h4 : (encode_packet colors).getD 4 0 = 3 * colors.length % 256 := by
    rw [encode_packet_cons]
    show (colors.length * 3 &&& 255) % 256 = _
    rw [lo_byte_eq, mul_comm]
  refine ⟨?_, h4, ?_, ?_⟩
  · rw [h3, hi_byte_eq, mul_comm]
  · rw [h3, h4]
    exact byte_pair_recompose (3 * colors.length)
  · rw [encode_packet_cons]
    simp only [List.length_cons, flatMap_triple_length]
    omega

end Ambilight
